import Mathlib

/-!
Verification development for the MALVADA report-curation pipeline.

Shallow embedding of the Python sources:
  * `src/malvada_workflow/get_duplicate_reports.py` (duplicate resolver),
  * `src/malvada_workflow/get_incorrect_cape_reports.py` (error classifier),
  * `src/malvada_workflow/get_cape_reports_stats.py` (stats aggregator),
  * `src/malvada_workflow/sanitize_and_anonymize_reports.py` (anonymizer).

File-system effects (`Path.rename`, `os.path.getsize`) are modelled by
carrying each report's path and byte size in the input data: within one
run of the duplicate resolver no file content changes, so `getsize` is a
pure function of the entry.  A `rename` into the duplicates staging area
happens in the source exactly when the path is appended to
`files_to_discard`, so the returned discard list is also the list of
relocated files.
-/

namespace Malvada

/-- One JSON report file as the duplicate resolver sees it: its path, the
`target.file.sha512` value parsed from the JSON, and its size on disk
(`os.path.getsize`). -/
structure FileEntry where
  path : String
  sha512 : String
  size : Nat
deriving DecidableEq

/-- Lookup in a Python-dict-like association list (`d[k]` / `k in d`). -/
def alookup (k : String) : List (String × α) → Option α
  | [] => none
  | (k₀, v) :: rest => if k₀ = k then some v else alookup k rest

/-- Python dict assignment `d[k] = v`: overwrite in place when the key
exists, otherwise append the new key at the end (insertion order). -/
def aset (k : String) (v : α) : List (String × α) → List (String × α)
  | [] => [(k, v)]
  | (k₀, v₀) :: rest => if k₀ = k then (k, v) :: rest else (k₀, v₀) :: aset k v rest

/-- Loop body of `search_duplicates` (get_duplicate_reports.py, lines 49-69).
`seen` models `seen_values` (hash → first-seen file; the source stores the
path and re-reads the size with `os.path.getsize`, which is constant during
the run, so the entry carries it), `dups` models `duplicate_reports`.
On the second occurrence of a hash the group is created as
`[{json_file: size}]` — the CURRENT file — and then the first-seen file is
appended; later occurrences append at the end. -/
def searchGo : List FileEntry → List (String × FileEntry) →
    List (String × List (String × Nat)) → List (String × List (String × Nat))
  | [], _, dups => dups
  | f :: rest, seen, dups =>
    match alookup f.sha512 seen with
    | some firstSeen =>
      match alookup f.sha512 dups with
      | none =>
        searchGo rest seen
          (aset f.sha512 [(f.path, f.size), (firstSeen.path, firstSeen.size)] dups)
      | some grp =>
        searchGo rest seen (aset f.sha512 (grp ++ [(f.path, f.size)]) dups)
    | none => searchGo rest (aset f.sha512 f seen) dups

/-- Function `search_duplicates(json_files, ...)`: the returned
`duplicate_reports` mapping sha512 → list of `(path, size)` pairs. -/
def searchDuplicates (files : List FileEntry) : List (String × List (String × Nat)) :=
  searchGo files [] []

/-- The `'biggest'` inner loop of `move_duplicate_reports`
(lines 96-110): running max-scan with strict `>`; when the i-th entry is
strictly bigger the previous keeper is discarded, otherwise the i-th entry
is discarded.  `keep` is the current provisional keeper
(`duplicate_reports[report][index]`). -/
def biggestAux : (String × Nat) → List (String × Nat) → List String
  | _, [] => []
  | keep, x :: rest =>
    if x.2 > keep.2 then keep.1 :: biggestAux x rest
    else x.1 :: biggestAux keep rest

/-- Discard list produced by the `'biggest'` strategy for one group
(the source indexes `[0]` first, so an empty group would raise; groups
built by `search_duplicates` always have at least two entries). -/
def biggestDiscards : List (String × Nat) → List String
  | [] => []
  | k :: rest => biggestAux k rest

/-- The entry the `'biggest'` scan keeps (the one never renamed):
mirror of `biggestAux` that returns the final keeper instead of the
discards. -/
def biggestKeeper : (String × Nat) → List (String × Nat) → (String × Nat)
  | keep, [] => keep
  | keep, x :: rest =>
    if x.2 > keep.2 then biggestKeeper x rest else biggestKeeper keep rest

/-- Same scan as `biggestAux`, returning the discarded `(path, size)`
entries rather than only their paths (proof device). -/
def biggestAuxE : (String × Nat) → List (String × Nat) → List (String × Nat)
  | _, [] => []
  | keep, x :: rest =>
    if x.2 > keep.2 then keep :: biggestAuxE x rest
    else x :: biggestAuxE keep rest

/-- Discards contributed by one duplicate group under a given strategy:
`'first'` keeps index 0 and renames indices 1..n-1 in order (lines 88-93);
`'biggest'` runs the max-scan (lines 94-110); any other strategy string
matches no branch. -/
def groupDiscards (strat : String) (grp : List (String × Nat)) : List String :=
  if strat = "first" then (grp.drop 1).map Prod.fst
  else if strat = "biggest" then biggestDiscards grp
  else []

/-- Function `move_duplicate_reports(duplicate_reports, duplicates_strat)`
(lines 72-112): iterate the groups in dict insertion order and collect
`files_to_discard`.  Every `Path(...).rename(...)` in the source is
immediately followed by the corresponding `files_to_discard.append`, so
this list is exactly the list of relocated report paths. -/
def moveDuplicateReports (dups : List (String × List (String × Nat)))
    (strat : String) : List String :=
  if strat = "first" then
    dups.flatMap (fun g => (g.2.drop 1).map Prod.fst)
  else if strat = "biggest" then
    dups.flatMap (fun g => biggestDiscards g.2)
  else []

/-- Number of input reports whose binary has hash `h`. -/
def occCount (files : List FileEntry) (h : String) : Nat :=
  (files.filter (fun f => f.sha512 = h)).length

/-- The `(path, size)` pairs of the input reports with hash `h`, in
input order. -/
def pairsOf (files : List FileEntry) (h : String) : List (String × Nat) :=
  (files.filter (fun f => f.sha512 = h)).map (fun f => (f.path, f.size))

/-! ### Error classifier (get_incorrect_cape_reports.py)

A CAPE report is modelled only down to the fields `process_report`
(lines 49-78) reads; an `Option` is `none` when the Python dict lacks
the key, so that a subscript of a missing key is an uncaught `KeyError`,
modelled by `Except.error`. -/

/-- Field `target.file.virustotal`: only the presence of the `error` key is read. -/
structure VtEntry where
  hasError : Bool
deriving DecidableEq

/-- Field `target.file`. -/
structure FileField where
  virustotal : Option VtEntry
deriving DecidableEq

/-- Field `target`. -/
structure TargetField where
  file : Option FileField
deriving DecidableEq

/-- One element of `behavior.processes`. -/
structure ProcEntry where
  calls : Option (List Nat)
deriving DecidableEq

/-- Field `behavior`. -/
structure BehaviorField where
  processes : Option (List ProcEntry)
deriving DecidableEq

/-- A parsed CAPE report, restricted to the keys the classifier reads. -/
structure CapeReport where
  target : Option TargetField
  behavior : Option BehaviorField
deriving DecidableEq

/-- The destinations `process_report` can append a report to.  Categories
`fatal`, `noProcesses` and `noHookedFunctions` return immediately
(lines 60-72); the VT checks (lines 75-78) put the report in `noVt` or
`vtError` or leave it unlisted (`clean`).  The function returns exactly
one value, which models that each report is appended to at most one list. -/
inductive ErrCategory
  | fatal
  | noProcesses
  | noHookedFunctions
  | noVt
  | vtError
  | clean
deriving DecidableEq

/-- Method `ReportStats.process_report` (lines 49-78): checks in source order,
each returning on match; a subscript of a missing key raises (there is no
try/except anywhere on this path). -/
def processIncReport (r : CapeReport) : Except String ErrCategory :=
  match r.target with
  | none => Except.ok ErrCategory.fatal
  | some tgt =>
    match r.behavior with
    | none => Except.error "KeyError: behavior"
    | some beh =>
      match beh.processes with
      | none => Except.error "KeyError: processes"
      | some procs =>
        match procs with
        | [] => Except.ok ErrCategory.noProcesses
        | p₀ :: _ =>
          match p₀.calls with
          | none => Except.error "KeyError: calls"
          | some calls =>
            if calls.length = 0 then Except.ok ErrCategory.noHookedFunctions
            else
              match tgt.file with
              | none => Except.error "KeyError: file"
              | some fl =>
                match fl.virustotal with
                | none => Except.ok ErrCategory.noVt
                | some vt =>
                  if vt.hasError then Except.ok ErrCategory.vtError
                  else Except.ok ErrCategory.clean

/-- The classifier `main` loop (lines 173-177): `json.load` then
`process_report`, with NO try/except — a JSON parse failure (`none`
input) or a `KeyError` inside `process_report` propagates and aborts the
whole run, so the result is `Except.error` and later files are never
processed. -/
def mainClassify : List (String × Option CapeReport) →
    Except String (List (String × ErrCategory))
  | [] => Except.ok []
  | (p, none) :: _ => Except.error ("JSONDecodeError: " ++ p)
  | (p, some r) :: rest =>
    match processIncReport r with
    | Except.error e => Except.error e
    | Except.ok c =>
      match mainClassify rest with
      | Except.error e => Except.error e
      | Except.ok cs => Except.ok ((p, c) :: cs)

/-! ### Stats aggregator (get_cape_reports_stats.py)

`ReportStats` is modelled as an explicit state record; `process_report`
(lines 67-150) becomes a pure state update.  A min tracker starts as the
empty list `[]` (modelled `none`) and a max tracker as `[0, 0]` (value 0
with the integer placeholder in the path slot, modelled `(0, none)`). -/

/-- Python `str.capitalize()` (ASCII fragment): first character
uppercased, ALL remaining characters lowercased. -/
def pyCapitalize (s : String) : String :=
  match s.data with
  | [] => ""
  | c :: cs => String.mk (c.toUpper :: cs.map Char.toLower)

/-- The `detections` field after sanitization: the sentinel string
`"(n/a)"` or the list of `{family: ...}` records, kept as their family
strings. -/
inductive CapeDetections
  | na
  | families (fams : List String)
deriving DecidableEq

/-- A report as the stats aggregator reads it.  Each element of
`behavior.processes` is kept as its `calls` list; `vt` is
`target.file.virustotal.positives`, `none` when any step of that chain
raises (the `except` branch at line 123 then skips the rest of the
report). -/
structure StatsReport where
  processes : List (List Nat)
  vt : Option Int
  detections : CapeDetections
  avclassDetection : Option String
deriving DecidableEq

/-- The attributes of `ReportStats` (lines 42-65). -/
structure StatsState where
  totalSpawned : Nat
  minSpawned : Option (Nat × String)
  maxSpawned : Nat × Option String
  totalHooked : Nat
  minHooked : Option (Nat × String)
  maxHooked : Nat × Option String
  totalVtPositives : Int
  minVt : Option (Int × String)
  maxVt : Int × Option String
  noVtPositives : List String
  capeDetectionLabels : List String
  avclassDetectionLabels : List String
  reportsNoCapeConsensus : List String
  reportsNoAvclassConsensus : List String
  vtThreshold : Int
deriving DecidableEq

/-- Constructor `ReportStats.__init__` (lines 42-65): note `total_vt_positives = 0`. -/
def initStats (thr : Int) : StatsState :=
  { totalSpawned := 0
    minSpawned := none
    maxSpawned := (0, none)
    totalHooked := 0
    minHooked := none
    maxHooked := (0, none)
    totalVtPositives := 0
    minVt := none
    maxVt := (0, none)
    noVtPositives := []
    capeDetectionLabels := []
    avclassDetectionLabels := []
    reportsNoCapeConsensus := []
    reportsNoAvclassConsensus := []
    vtThreshold := thr }

/-- Lines 77-89: spawned-process count with min (strict `<`),
max (strict `<` read as `max[0] < n`) and running total. -/
def spawnedUpdate (st : StatsState) (r : StatsReport) (p : String) : StatsState :=
  let n := r.processes.length
  let st₁ :=
    match st.minSpawned with
    | none => { st with minSpawned := some (n, p) }
    | some (m, _) =>
      if n < m then { st with minSpawned := some (n, p) } else st
  let st₂ :=
    if st₁.maxSpawned.1 < n then { st₁ with maxSpawned := (n, some p) } else st₁
  { st₂ with totalSpawned := st₂.totalSpawned + n }

/-- Loop body of lines 92-104 for one process: hooked-function total,
min tracker, max tracker (strict comparisons). -/
def hookedProc (st : StatsState) (calls : List Nat) (p : String) : StatsState :=
  let st₁ := { st with totalHooked := st.totalHooked + calls.length }
  let st₂ :=
    match st₁.minHooked with
    | none => { st₁ with minHooked := some (calls.length, p) }
    | some (m, _) =>
      if calls.length < m then { st₁ with minHooked := some (calls.length, p) } else st₁
  if st₂.maxHooked.1 < calls.length then { st₂ with maxHooked := (calls.length, some p) }
  else st₂

/-- Lines 92-104: fold over `behavior.processes`. -/
def hookedUpdate (st : StatsState) (r : StatsReport) (p : String) : StatsState :=
  r.processes.foldl (fun s calls => hookedProc s calls p) st

/-- Lines 110-122 (inside the `try`): VT min tracker, max tracker and the
threshold list.  NOTE the running sum `total_vt_positives` is NOT updated
anywhere in the source. -/
def vtUpdate (st : StatsState) (v : Int) (p : String) : StatsState :=
  let st₁ :=
    match st.minVt with
    | none => { st with minVt := some (v, p) }
    | some (m, _) =>
      if v < m then { st with minVt := some (v, p) } else st
  let st₂ :=
    if st₁.maxVt.1 < v then { st₁ with maxVt := (v, some p) } else st₁
  if v ≤ st₂.vtThreshold then { st₂ with noVtPositives := st₂.noVtPositives ++ [p] }
  else st₂

/-- Lines 129-137: CAPE label consensus.  Python truthiness of the int
`actual_report_vt_positives` is `v ≠ 0`.  In the `elif` branch each
detection family is appended AFTER `.capitalize()`. -/
def capeUpdate (st : StatsState) (r : StatsReport) (v : Int) (p : String) : StatsState :=
  if r.detections = CapeDetections.na ∧ v ≠ 0 then
    { st with
      reportsNoCapeConsensus := st.reportsNoCapeConsensus ++ [p],
      capeDetectionLabels := st.capeDetectionLabels ++ ["(n/a)"] }
  else if v ≠ 0 then
    match r.detections with
    | CapeDetections.na => st
    | CapeDetections.families fams =>
      { st with capeDetectionLabels := st.capeDetectionLabels ++ fams.map pyCapitalize }
  else st

/-- Lines 140-150: AVClass label consensus.  The sentinel test compares
`cape_report['avclass_detection'].capitalize()` with `"(n/a)"`, but the
value APPENDED to `avclass_detection_labels` in the non-sentinel branch
is the RAW `cape_report['avclass_detection']`, not the capitalized one. -/
def avclassUpdate (st : StatsState) (r : StatsReport) (p : String) : StatsState :=
  match r.avclassDetection with
  | none => st
  | some a =>
    if pyCapitalize a ≠ "(n/a)" then
      { st with avclassDetectionLabels := st.avclassDetectionLabels ++ [a] }
    else
      { st with
        avclassDetectionLabels := st.avclassDetectionLabels ++ ["(n/a)"],
        reportsNoAvclassConsensus := st.reportsNoAvclassConsensus ++ [p] }

/-- Method `ReportStats.process_report` (lines 67-150) as one state update.
When reading `target.file.virustotal.positives` raises (`vt = none`),
the `except` branch logs and `return`s: the label blocks are skipped. -/
def processReportStats (st : StatsState) (r : StatsReport) (p : String) : StatsState :=
  let st₁ := spawnedUpdate st r p
  let st₂ := hookedUpdate st₁ r p
  match r.vt with
  | none => st₂
  | some v =>
    let st₃ := vtUpdate st₂ v p
    let st₄ := capeUpdate st₃ r v p
    avclassUpdate st₄ r p

/-- The `main` loop of the stats phase (lines 275-283) over already
parsed reports, starting from `ReportStats(silent, vt_positives_threshold)`. -/
def statsFold (thr : Int) (files : List (String × StatsReport)) : StatsState :=
  files.foldl (fun st pr => processReportStats st pr.2 pr.1) (initStats thr)

/-- Expression `Counter(labels)[l]`: the frequency-bucket count of one label. -/
def countLabel (labels : List String) (l : String) : Nat :=
  (labels.filter (fun s => s = l)).length

/-! ### Anonymizer (sanitize_and_anonymize_reports.py)

`anonymize_report` (lines 75-94) splices each term UNESCAPED into a sed
script `s/term/[REDACTED]/g; ...` and runs it over the report file.
`gsub` models sed's global substitute for fixed-length patterns
(leftmost match, replace, continue after the replacement).  The regex
dialect is modelled on the fragment in which `.` (any character) is the
only metacharacter that occurs; `dotMatch` is faithful to sed exactly on
terms whose characters avoid the remaining BRE specials and the `/`
delimiter. -/

/-- Fixed-length pattern match at the head of the text, `.` matching any
character (sed BRE fragment). -/
def dotMatch : List Char → List Char → Bool
  | [], _ => true
  | _ :: _, [] => false
  | p :: ps, c :: cs => (p == '.' || p == c) && dotMatch ps cs

/-- Literal (verbatim) match at the head of the text: the spec's reading
of "replace every occurrence of each term, verbatim". -/
def litMatch : List Char → List Char → Bool
  | [], _ => true
  | _ :: _, [] => false
  | p :: ps, c :: cs => (p == c) && litMatch ps cs

/-- Global substitution, scanning left to right with a skip counter for
the span of the last match: while the counter is positive the character
belongs to the matched span and is dropped; at counter zero, a match of
the (fixed-length, nonempty) pattern emits the replacement and sets the
counter to skip the rest of the matched span, otherwise the character is
kept.  This is sed `s///g`: leftmost match, non-overlapping, continue
after the replacement. -/
def gsubGo (m : List Char → List Char → Bool) (pat repl : List Char) :
    List Char → Nat → List Char
  | [], _ => []
  | _ :: cs, Nat.succ k => gsubGo m pat repl cs k
  | c :: cs, 0 =>
    if m pat (c :: cs) then repl ++ gsubGo m pat repl cs (pat.length - 1)
    else c :: gsubGo m pat repl cs 0

/-- Global substitution over a whole text. -/
def gsub (m : List Char → List Char → Bool) (pat repl s : List Char) : List Char :=
  gsubGo m pat repl s 0

/-- What the source does for one term of the terms file: a sed
`s/term/[REDACTED]/g` pass with the term spliced in unescaped. -/
def sedSubstOne (term doc : String) : String :=
  String.mk (gsub dotMatch term.data "[REDACTED]".data doc.data)

/-- Modelled from the spec: "replace every occurrence of each term,
verbatim, anywhere in the serialized document text, with a redaction
marker" — the same global scan with the term as a literal string. -/
def literalReplaceAll (term doc : String) : String :=
  String.mk (gsub litMatch term.data "[REDACTED]".data doc.data)

/-- Function `anonymize_report` over the whole terms file: the sed script applies
the substitutions for the terms in file order, each over the result of
the previous one. -/
def anonymizeReport (terms : List String) (doc : String) : String :=
  terms.foldl (fun d t => sedSubstOne t d) doc

/-- Modelled from the spec: the same pass with every term treated as a
literal string. -/
def literalAnonymize (terms : List String) (doc : String) : String :=
  terms.foldl (fun d t => literalReplaceAll t d) doc

/-- Modelled from the spec: case normalization "first letter capitalized,
rest unchanged" (the claim's reading, to compare with `pyCapitalize`). -/
def specCapitalizeFirstOnly (s : String) : String :=
  match s.data with
  | [] => ""
  | c :: cs => String.mk (c.toUpper :: cs)

/-! ## Lemmas about the duplicate resolver -/

theorem alookup_aset_self (k : String) (v : α) (l : List (String × α)) :
    alookup k (aset k v l) = some v := by
  induction l with
  | nil => simp [aset, alookup]
  | cons kv rest ih =>
    obtain ⟨k₀, v₀⟩ := kv
    by_cases hk : k₀ = k
    · simp [aset, alookup, hk]
    · simp [aset, alookup, hk, ih]

theorem alookup_aset_ne (h k : String) (v : α) (l : List (String × α))
    (hne : h ≠ k) : alookup h (aset k v l) = alookup h l := by
  induction l with
  | nil => simp [aset, alookup, hne.symm]
  | cons kv rest ih =>
    obtain ⟨k₀, v₀⟩ := kv
    by_cases hk : k₀ = k
    · subst hk
      simp [aset, alookup, hne.symm]
    · simp [aset, alookup, hk, ih]

theorem pairsOf_cons (f : FileEntry) (rest : List FileEntry) (h : String) :
    pairsOf (f :: rest) h =
      if f.sha512 = h then (f.path, f.size) :: pairsOf rest h else pairsOf rest h := by
  by_cases hf : f.sha512 = h <;> simp [pairsOf, hf]

theorem occCount_eq_pairsOf_length (files : List FileEntry) (h : String) :
    occCount files h = (pairsOf files h).length := by
  simp [occCount, pairsOf]

/-- Behaviour of one run of the `search_duplicates` loop on the group of
one hash, for any starting state in which a hash already grouped has a
first-seen entry (true initially, both maps empty, and preserved by the
loop).  Read off the three cases: a hash already grouped appends its new
occurrences in order; a hash already seen once opens the group with the
NEW occurrence first, then the first-seen pair, then the remaining
occurrences; a fresh hash needs at least two occurrences, and its group
lists the second occurrence first, then the first, then the rest. -/
theorem searchGo_lookup (files : List FileEntry) :
    ∀ (seen : List (String × FileEntry)) (dups : List (String × List (String × Nat)))
      (h : String),
    (∀ g, alookup h dups = some g → (alookup h seen).isSome) →
    alookup h (searchGo files seen dups) =
      match alookup h dups, alookup h seen, pairsOf files h with
      | some grp, _, ps => some (grp ++ ps)
      | none, some _, [] => none
      | none, some fs, q :: qs => some (q :: (fs.path, fs.size) :: qs)
      | none, none, [] => none
      | none, none, [_] => none
      | none, none, q₁ :: q₂ :: qs => some (q₂ :: q₁ :: qs) := by
  induction files with
  | nil =>
    intro seen dups h _
    cases hd : alookup h dups with
    | some grp => simp [searchGo, pairsOf, hd]
    | none =>
      cases hs : alookup h seen with
      | some fs => simp [searchGo, pairsOf, hd, hs]
      | none => simp [searchGo, pairsOf, hd, hs]
  | cons f rest ih =>
    intro seen dups h hinv
    by_cases hfh : f.sha512 = h
    · subst hfh
      cases hs : alookup f.sha512 seen with
      | none =>
        have hd : alookup f.sha512 dups = none := by
          cases hd : alookup f.sha512 dups with
          | none => rfl
          | some g =>
            have := hinv g hd
            rw [hs] at this
            simp at this
        have ihr := ih (aset f.sha512 f seen) dups f.sha512
          (by
            intro g hg
            rw [alookup_aset_self]
            simp)
        rw [searchGo, hs] at *
        rw [ihr, hd, alookup_aset_self, pairsOf_cons]
        simp only [if_pos rfl, hd, hs]
        cases hp : pairsOf rest f.sha512 with
        | nil => simp
        | cons q qs => simp
      | some fs =>
        cases hd : alookup f.sha512 dups with
        | none =>
          have ihr := ih seen
            (aset f.sha512 [(f.path, f.size), (fs.path, fs.size)] dups) f.sha512
            (by
              intro g _
              rw [hs]
              simp)
          rw [searchGo, hs, hd, ihr, alookup_aset_self, pairsOf_cons]
          simp only [if_pos rfl, hd, hs]
          cases hp : pairsOf rest f.sha512 with
          | nil => simp
          | cons q qs => simp
        | some grp =>
          have ihr := ih seen (aset f.sha512 (grp ++ [(f.path, f.size)]) dups) f.sha512
            (by
              intro g _
              rw [hs]
              simp)
          rw [searchGo, hs, hd, ihr, alookup_aset_self, pairsOf_cons]
          simp only [if_pos rfl, hd, hs]
          cases hp : pairsOf rest f.sha512 with
          | nil => simp
          | cons q qs => simp
    · have hpc : pairsOf (f :: rest) h = pairsOf rest h := by
        rw [pairsOf_cons, if_neg hfh]
      cases hs : alookup f.sha512 seen with
      | none =>
        have ihr := ih (aset f.sha512 f seen) dups h
          (by
            intro g hg
            rw [alookup_aset_ne h f.sha512 _ _ (fun hcon => hfh hcon.symm)]
            exact hinv g hg)
        rw [searchGo, hs, ihr, hpc,
          alookup_aset_ne h f.sha512 _ _ (fun hcon => hfh hcon.symm)]
      | some fs =>
        cases hd : alookup f.sha512 dups with
        | none =>
          have ihr := ih seen
            (aset f.sha512 [(f.path, f.size), (fs.path, fs.size)] dups) h
            (by
              intro g hg
              rw [alookup_aset_ne h f.sha512 _ _ (fun hcon => hfh hcon.symm)] at hg
              exact hinv g hg)
          rw [searchGo, hs, hd, ihr, hpc,
            alookup_aset_ne h f.sha512 _ _ (fun hcon => hfh hcon.symm)]
        | some grp =>
          have ihr := ih seen (aset f.sha512 (grp ++ [(f.path, f.size)]) dups) h
            (by
              intro g hg
              rw [alookup_aset_ne h f.sha512 _ _ (fun hcon => hfh hcon.symm)] at hg
              exact hinv g hg)
          rw [searchGo, hs, hd, ihr, hpc,
            alookup_aset_ne h f.sha512 _ _ (fun hcon => hfh hcon.symm)]

/-- Specialization to the real entry point: the group stored for hash `h`
is empty when `h` occurs at most once, and otherwise lists the second
occurrence first, then the first occurrence, then the rest in input
order. -/
theorem searchDuplicates_lookup (files : List FileEntry) (h : String) :
    alookup h (searchDuplicates files) =
      match pairsOf files h with
      | [] => none
      | [_] => none
      | q₁ :: q₂ :: qs => some (q₂ :: q₁ :: qs) := by
  have := searchGo_lookup files [] [] h (by intro g hg; simp [alookup] at hg)
  rw [searchDuplicates]
  rw [this]
  cases hp : pairsOf files h with
  | nil => rfl
  | cons q qs =>
    cases qs with
    | nil => rfl
    | cons q₂ qs₂ => rfl

theorem biggestAux_eq_map (k : String × Nat) (rest : List (String × Nat)) :
    biggestAux k rest = (biggestAuxE k rest).map Prod.fst := by
  induction rest generalizing k with
  | nil => rfl
  | cons x rest ih =>
    by_cases hx : x.2 > k.2 <;> simp [biggestAux, biggestAuxE, hx, ih]

theorem biggestAuxE_length (k : String × Nat) (rest : List (String × Nat)) :
    (biggestAuxE k rest).length = rest.length := by
  induction rest generalizing k with
  | nil => rfl
  | cons x rest ih =>
    by_cases hx : x.2 > k.2 <;> simp [biggestAuxE, hx, ih]

theorem biggestKeeper_ge (k : String × Nat) (rest : List (String × Nat)) :
    ∀ e ∈ k :: rest, e.2 ≤ (biggestKeeper k rest).2 := by
  induction rest generalizing k with
  | nil =>
    intro e he
    simp at he
    simp [biggestKeeper, he]
  | cons x rest ih =>
    intro e he
    by_cases hx : x.2 > k.2
    · rw [biggestKeeper, if_pos hx]
      rcases List.mem_cons.mp he with he₁ | he₂
      · subst he₁
        exact le_trans (le_of_lt hx) (ih x x (List.mem_cons_self x rest))
      · exact ih x e he₂
    · rw [biggestKeeper, if_neg hx]
      rcases List.mem_cons.mp he with he₁ | he₂
      · rw [he₁]
        exact ih k k (List.mem_cons_self k rest)
      · rcases List.mem_cons.mp he₂ with he₃ | he₄
        · rw [he₃]
          exact le_trans (Nat.le_of_not_lt hx) (ih k k (List.mem_cons_self k rest))
        · exact ih k e (List.mem_cons.mpr (Or.inr he₄))

theorem biggestKeeper_perm (k : String × Nat) (rest : List (String × Nat)) :
    (k :: rest).Perm (biggestKeeper k rest :: biggestAuxE k rest) := by
  induction rest generalizing k with
  | nil => simp [biggestKeeper, biggestAuxE]
  | cons x rest ih =>
    by_cases hx : x.2 > k.2
    · rw [biggestKeeper, if_pos hx, biggestAuxE, if_pos hx]
      exact ((ih x).cons k).trans
        (List.Perm.swap (biggestKeeper x rest) k (biggestAuxE x rest))
    · rw [biggestKeeper, if_neg hx, biggestAuxE, if_neg hx]
      exact ((List.Perm.swap x k rest).trans ((ih k).cons x)).trans
        (List.Perm.swap (biggestKeeper k rest) x (biggestAuxE k rest))

theorem biggestAuxE_le_keeper (k : String × Nat) (rest : List (String × Nat)) :
    ∀ e ∈ biggestAuxE k rest, e.2 ≤ (biggestKeeper k rest).2 := by
  intro e he
  have hmem : e ∈ k :: rest :=
    (biggestKeeper_perm k rest).mem_iff.mpr (List.mem_cons.mpr (Or.inr he))
  exact biggestKeeper_ge k rest e hmem

/-- The keeper of the max-scan is the FIRST element of the group list
that attains the maximal size: everything strictly before it in the list
is strictly smaller (the scan replaces the keeper only on strict `>`). -/
theorem biggestKeeper_first_max (k : String × Nat) (rest : List (String × Nat)) :
    ∃ pre post, k :: rest = pre ++ biggestKeeper k rest :: post ∧
      ∀ e ∈ pre, e.2 < (biggestKeeper k rest).2 := by
  induction rest generalizing k with
  | nil => exact ⟨[], [], by simp [biggestKeeper], by simp⟩
  | cons x rest ih =>
    by_cases hx : x.2 > k.2
    · rw [biggestKeeper, if_pos hx]
      obtain ⟨pre, post, hsplit, hlt⟩ := ih x
      refine ⟨k :: pre, post, by simp [hsplit], ?_⟩
      intro e he
      rcases List.mem_cons.mp he with he₁ | he₂
      · subst he₁
        exact lt_of_lt_of_le hx (biggestKeeper_ge x rest x (List.mem_cons_self x rest))
      · exact hlt e he₂
    · rw [biggestKeeper, if_neg hx]
      obtain ⟨pre, post, hsplit, hlt⟩ := ih k
      cases pre with
      | nil =>
        simp only [List.nil_append] at hsplit
        injection hsplit with h₁ h₂
        exact ⟨[], x :: rest, by simp [← h₁], by simp⟩
      | cons p pre₁ =>
        rw [List.cons_append] at hsplit
        injection hsplit with h₁ h₂
        subst h₁
        refine ⟨k :: x :: pre₁, post,
          by rw [List.cons_append, List.cons_append, ← h₂], ?_⟩
        intro e he
        have hklt : k.2 < (biggestKeeper k rest).2 :=
          hlt k (List.mem_cons_self k pre₁)
        rcases List.mem_cons.mp he with he₁ | he₂
        · subst he₁
          exact hklt
        · rcases List.mem_cons.mp he₂ with he₃ | he₄
          · subst he₃
            exact lt_of_le_of_lt (Nat.le_of_not_lt hx) hklt
          · exact hlt e (List.mem_cons.mpr (Or.inr he₄))

/-! ## Lemmas about the stats aggregator

Each update block of `process_report` touches only its own attributes;
these lemmas record the fields each block leaves unchanged. -/

theorem spawnedUpdate_preserves (st : StatsState) (r : StatsReport) (p : String) :
    (spawnedUpdate st r p).totalVtPositives = st.totalVtPositives ∧
    (spawnedUpdate st r p).capeDetectionLabels = st.capeDetectionLabels ∧
    (spawnedUpdate st r p).avclassDetectionLabels = st.avclassDetectionLabels ∧
    (spawnedUpdate st r p).reportsNoAvclassConsensus = st.reportsNoAvclassConsensus ∧
    (spawnedUpdate st r p).reportsNoCapeConsensus = st.reportsNoCapeConsensus := by
  unfold spawnedUpdate
  dsimp only
  repeat' split
  all_goals exact ⟨rfl, rfl, rfl, rfl, rfl⟩

theorem hookedProc_preserves (st : StatsState) (calls : List Nat) (p : String) :
    (hookedProc st calls p).totalVtPositives = st.totalVtPositives ∧
    (hookedProc st calls p).capeDetectionLabels = st.capeDetectionLabels ∧
    (hookedProc st calls p).avclassDetectionLabels = st.avclassDetectionLabels ∧
    (hookedProc st calls p).reportsNoAvclassConsensus = st.reportsNoAvclassConsensus ∧
    (hookedProc st calls p).reportsNoCapeConsensus = st.reportsNoCapeConsensus := by
  unfold hookedProc
  dsimp only
  repeat' split
  all_goals exact ⟨rfl, rfl, rfl, rfl, rfl⟩

theorem hookedUpdate_preserves (st : StatsState) (r : StatsReport) (p : String) :
    (hookedUpdate st r p).totalVtPositives = st.totalVtPositives ∧
    (hookedUpdate st r p).capeDetectionLabels = st.capeDetectionLabels ∧
    (hookedUpdate st r p).avclassDetectionLabels = st.avclassDetectionLabels ∧
    (hookedUpdate st r p).reportsNoAvclassConsensus = st.reportsNoAvclassConsensus ∧
    (hookedUpdate st r p).reportsNoCapeConsensus = st.reportsNoCapeConsensus := by
  unfold hookedUpdate
  induction r.processes generalizing st with
  | nil => simp
  | cons calls ps ih =>
    rw [List.foldl_cons]
    have h₁ := hookedProc_preserves st calls p
    have h₂ := ih (hookedProc st calls p)
    exact ⟨h₂.1.trans h₁.1, h₂.2.1.trans h₁.2.1, h₂.2.2.1.trans h₁.2.2.1,
      h₂.2.2.2.1.trans h₁.2.2.2.1, h₂.2.2.2.2.trans h₁.2.2.2.2⟩

theorem vtUpdate_preserves (st : StatsState) (v : Int) (p : String) :
    (vtUpdate st v p).totalVtPositives = st.totalVtPositives ∧
    (vtUpdate st v p).capeDetectionLabels = st.capeDetectionLabels ∧
    (vtUpdate st v p).avclassDetectionLabels = st.avclassDetectionLabels ∧
    (vtUpdate st v p).reportsNoAvclassConsensus = st.reportsNoAvclassConsensus ∧
    (vtUpdate st v p).reportsNoCapeConsensus = st.reportsNoCapeConsensus := by
  unfold vtUpdate
  dsimp only
  repeat' split
  all_goals exact ⟨rfl, rfl, rfl, rfl, rfl⟩

theorem capeUpdate_preserves (st : StatsState) (r : StatsReport) (v : Int) (p : String) :
    (capeUpdate st r v p).totalVtPositives = st.totalVtPositives ∧
    (capeUpdate st r v p).avclassDetectionLabels = st.avclassDetectionLabels ∧
    (capeUpdate st r v p).reportsNoAvclassConsensus = st.reportsNoAvclassConsensus := by
  unfold capeUpdate
  repeat' split
  all_goals exact ⟨rfl, rfl, rfl⟩

theorem avclassUpdate_preserves (st : StatsState) (r : StatsReport) (p : String) :
    (avclassUpdate st r p).totalVtPositives = st.totalVtPositives ∧
    (avclassUpdate st r p).capeDetectionLabels = st.capeDetectionLabels ∧
    (avclassUpdate st r p).reportsNoCapeConsensus = st.reportsNoCapeConsensus := by
  unfold avclassUpdate
  repeat' split
  all_goals exact ⟨rfl, rfl, rfl⟩

theorem processReportStats_totalVt (st : StatsState) (r : StatsReport) (p : String) :
    (processReportStats st r p).totalVtPositives = st.totalVtPositives := by
  unfold processReportStats
  cases hv : r.vt with
  | none =>
    exact (hookedUpdate_preserves (spawnedUpdate st r p) r p).1.trans
      (spawnedUpdate_preserves st r p).1
  | some v =>
    have h₁ := (spawnedUpdate_preserves st r p).1
    have h₂ := (hookedUpdate_preserves (spawnedUpdate st r p) r p).1
    have h₃ := (vtUpdate_preserves (hookedUpdate (spawnedUpdate st r p) r p) v p).1
    have h₄ := (capeUpdate_preserves
      (vtUpdate (hookedUpdate (spawnedUpdate st r p) r p) v p) r v p).1
    have h₅ := (avclassUpdate_preserves
      (capeUpdate (vtUpdate (hookedUpdate (spawnedUpdate st r p) r p) v p) r v p) r p).1
    simp only []
    exact h₅.trans (h₄.trans (h₃.trans (h₂.trans h₁)))

theorem statsFoldFrom_totalVt (files : List (String × StatsReport)) :
    ∀ st : StatsState,
      (files.foldl (fun s pr => processReportStats s pr.2 pr.1) st).totalVtPositives =
        st.totalVtPositives := by
  induction files with
  | nil => intro st; rfl
  | cons f rest ih =>
    intro st
    rw [List.foldl_cons]
    exact (ih _).trans (processReportStats_totalVt st f.2 f.1)

theorem capeUpdate_families (st : StatsState) (r : StatsReport) (v : Int) (p : String)
    (fams : List String) (hd : r.detections = CapeDetections.families fams)
    (hv : v ≠ 0) :
    capeUpdate st r v p =
      { st with capeDetectionLabels := st.capeDetectionLabels ++ fams.map pyCapitalize } := by
  simp [capeUpdate, hd, hv]

theorem avclassUpdate_raw (st : StatsState) (r : StatsReport) (p : String) (a : String)
    (ha : r.avclassDetection = some a) (hna : pyCapitalize a ≠ "(n/a)") :
    avclassUpdate st r p =
      { st with avclassDetectionLabels := st.avclassDetectionLabels ++ [a] } := by
  simp [avclassUpdate, ha, hna]

theorem avclassUpdate_sentinel (st : StatsState) (r : StatsReport) (p : String) (a : String)
    (ha : r.avclassDetection = some a) (hna : pyCapitalize a = "(n/a)") :
    avclassUpdate st r p =
      { st with
        avclassDetectionLabels := st.avclassDetectionLabels ++ ["(n/a)"],
        reportsNoAvclassConsensus := st.reportsNoAvclassConsensus ++ [p] } := by
  simp [avclassUpdate, ha, hna]

/-! ## Lemmas about the anonymizer -/

/-- The characters that are special in a sed `s///` command: BRE
metacharacters plus the `/` delimiter.  A term avoiding all of them is
matched by sed exactly as a literal string. -/
def sedSpecials : List Char := ['.', '*', '[', ']', '^', '$', '\\', '/']

theorem dotMatch_eq_litMatch (pat : List Char) (hdot : '.' ∉ pat) :
    ∀ s, dotMatch pat s = litMatch pat s := by
  induction pat with
  | nil => intro s; cases s <;> rfl
  | cons p ps ih =>
    intro s
    have hp : p ≠ '.' := fun hcon => hdot (hcon ▸ List.mem_cons_self p ps)
    have hps : '.' ∉ ps := fun hcon => hdot (List.mem_cons.mpr (Or.inr hcon))
    cases s with
    | nil => rfl
    | cons c cs =>
      rw [dotMatch, litMatch, ih hps cs]
      have hpd : (p == '.') = false := by
        simp [hp]
      rw [hpd]
      simp

theorem gsubGo_congr (m₁ m₂ : List Char → List Char → Bool) (pat repl : List Char)
    (hm : ∀ s, m₁ pat s = m₂ pat s) :
    ∀ (s : List Char) (k : Nat), gsubGo m₁ pat repl s k = gsubGo m₂ pat repl s k := by
  intro s
  induction s with
  | nil => intro k; rfl
  | cons c cs ih =>
    intro k
    cases k with
    | succ k₀ => rw [gsubGo, gsubGo, ih k₀]
    | zero =>
      rw [gsubGo, gsubGo, hm (c :: cs), ih, ih]

theorem sedSubstOne_eq_literal (term doc : String) (hdot : '.' ∉ term.data) :
    sedSubstOne term doc = literalReplaceAll term doc := by
  unfold sedSubstOne literalReplaceAll gsub
  rw [gsubGo_congr dotMatch litMatch term.data _ (dotMatch_eq_litMatch term.data hdot)]

/-! ## The claims -/

/-- C1: the claim says that under the `'first'` keep-strategy the member
of each duplicate group encountered FIRST in the input list is kept and
every later member discarded.  The code does the opposite: the group for
a hash is seeded with the SECOND occurrence (`search_duplicates` line 61
stores the current file at index 0 and appends the first-seen file after
it), and the `'first'` branch of `move_duplicate_reports` keeps index 0.
At the failing input below — `a.json` then `b.json` with the same
sha512 — the discard list is `["a.json"]`: the first-encountered report
is discarded and the second-encountered one is kept, contradicting both
the claim and the source docstring ("the first to encounter prevails"). -/
theorem claim1_first_strategy_discards_first_seen :
    moveDuplicateReports
      (searchDuplicates
        [FileEntry.mk "a.json" "h" 100, FileEntry.mk "b.json" "h" 100]) "first" =
      ["a.json"] := by decide

/-- C4 counterexample: the claim says that on an exact size tie the
member encountered EARLIEST in the input list is kept.  With `a.json`
(size 5) encountered before `b.json` (size 5, same hash), the stored
group is `[b, a]`, the strict `>` scan keeps the list head `b.json`, and
the earliest-encountered `a.json` is discarded — so the tie-break part
of the claim is false. -/
theorem claim4_counterexample :
    moveDuplicateReports
      (searchDuplicates
        [FileEntry.mk "a.json" "h" 5, FileEntry.mk "b.json" "h" 5]) "biggest" =
      ["a.json"] := by decide

/-- C4 amended: under the `'biggest'` strategy the kept member's size is
greater than or equal to every discarded member's size, and on a tie the
kept member is the EARLIEST ENTRY OF THE STORED GROUP LIST attaining the
maximum (everything before the keeper in the group list is strictly
smaller).  Because the group list places the second-encountered report
first, a tie between the first two occurrences keeps the
second-encountered report, not the earliest-encountered one. -/
theorem claim4_amended (k : String × Nat) (rest : List (String × Nat)) :
    (∀ e ∈ biggestAuxE k rest, e.2 ≤ (biggestKeeper k rest).2) ∧
    biggestDiscards (k :: rest) = (biggestAuxE k rest).map Prod.fst ∧
    (∃ pre post, k :: rest = pre ++ biggestKeeper k rest :: post ∧
      ∀ e ∈ pre, e.2 < (biggestKeeper k rest).2) :=
  ⟨biggestAuxE_le_keeper k rest,
   by rw [biggestDiscards, biggestAux_eq_map],
   biggestKeeper_first_max k rest⟩

/-- C8: for both supported strategies, every hash held in the duplicate
mapping has a group of exactly its occurrence count `N ≥ 2`, the group
contributes exactly `N - 1` paths to the discard list, and the group's
paths split as one kept path plus the discarded ones; a hash occurring
at most once never enters the mapping (so its report is never renamed —
`move_duplicate_reports` only touches paths stored in groups). -/
theorem claim8_one_kept_per_group (files : List FileEntry) (h : String) (strat : String)
    (hs : strat = "first" ∨ strat = "biggest") :
    (∀ grp, alookup h (searchDuplicates files) = some grp →
      2 ≤ occCount files h ∧ grp.length = occCount files h ∧
      (groupDiscards strat grp).length = grp.length - 1 ∧
      ∃ kept, kept ∈ grp ∧ (grp.map Prod.fst).Perm (kept.1 :: groupDiscards strat grp)) ∧
    (occCount files h ≤ 1 → alookup h (searchDuplicates files) = none) := by
  have hlk := searchDuplicates_lookup files h
  have hocc := occCount_eq_pairsOf_length files h
  constructor
  · intro grp hgrp
    rw [hlk] at hgrp
    cases hp : pairsOf files h with
    | nil => rw [hp] at hgrp; exact absurd hgrp (by simp)
    | cons q₁ qs =>
      cases qs with
      | nil => rw [hp] at hgrp; exact absurd hgrp (by simp)
      | cons q₂ qs₂ =>
        rw [hp] at hgrp
        have hgrp₂ : q₂ :: q₁ :: qs₂ = grp := by
          injection hgrp
        subst hgrp₂
        have hlen : occCount files h = qs₂.length + 2 := by
          rw [hocc, hp]
          simp
        refine ⟨by omega, by simp; omega, ?_, ?_⟩
        · rcases hs with h₁ | h₁ <;> subst h₁
          · rw [groupDiscards, if_pos rfl]
            simp
          · rw [groupDiscards, if_neg (by decide), if_pos rfl, biggestDiscards,
              biggestAux_eq_map, List.length_map, biggestAuxE_length]
            simp
        · rcases hs with h₁ | h₁ <;> subst h₁
          · refine ⟨q₂, List.mem_cons_self _ _, ?_⟩
            rw [groupDiscards, if_pos rfl]
            simp
          · have hperm := biggestKeeper_perm q₂ (q₁ :: qs₂)
            refine ⟨biggestKeeper q₂ (q₁ :: qs₂),
              hperm.mem_iff.mpr (List.mem_cons_self _ _), ?_⟩
            rw [groupDiscards, if_neg (by decide), if_pos rfl, biggestDiscards,
              biggestAux_eq_map]
            simpa using hperm.map Prod.fst
  · intro hle
    rw [hlk]
    cases hp : pairsOf files h with
    | nil => rfl
    | cons q qs =>
      cases qs with
      | nil => rfl
      | cons q₂ qs₂ =>
        rw [hocc, hp] at hle
        simp at hle

/-- C8 witness at a concrete input: three reports, two sharing hash
`"h"`, one with a unique hash `"g"`; under `'first'` the group for `"h"`
holds both entries and yields one discard, and `"g"` is not grouped. -/
theorem claim8_one_kept_per_group_witness :
    (("first" : String) = "first" ∨ ("first" : String) = "biggest") ∧
    (2 ≤ occCount
        [FileEntry.mk "a.json" "h" 1, FileEntry.mk "b.json" "h" 2,
         FileEntry.mk "c.json" "g" 3] "h" ∧
      ([(("b.json" : String), (2 : Nat)), ("a.json", 1)]).length =
        occCount
          [FileEntry.mk "a.json" "h" 1, FileEntry.mk "b.json" "h" 2,
           FileEntry.mk "c.json" "g" 3] "h" ∧
      (groupDiscards "first" [(("b.json" : String), (2 : Nat)), ("a.json", 1)]).length =
        ([(("b.json" : String), (2 : Nat)), ("a.json", 1)]).length - 1 ∧
      ∃ kept, kept ∈ [(("b.json" : String), (2 : Nat)), ("a.json", 1)] ∧
        (([(("b.json" : String), (2 : Nat)), ("a.json", 1)]).map Prod.fst).Perm
          (kept.1 :: groupDiscards "first" [(("b.json" : String), (2 : Nat)), ("a.json", 1)])) :=
  ⟨Or.inl rfl,
   (claim8_one_kept_per_group
      [FileEntry.mk "a.json" "h" 1, FileEntry.mk "b.json" "h" 2,
       FileEntry.mk "c.json" "g" 3] "h" "first" (Or.inl rfl)).1
     [(("b.json" : String), (2 : Nat)), ("a.json", 1)] (by decide)⟩

/-- C10: for every strategy string other than `'first'` and `'biggest'`,
`move_duplicate_reports` matches neither branch of its `if`/`elif`, so
it renames nothing (every rename in the source sits inside one of the
two branches) and returns the empty discard list without raising. -/
theorem claim10_unknown_strategy (dups : List (String × List (String × Nat)))
    (strat : String) (h₁ : strat ≠ "first") (h₂ : strat ≠ "biggest") :
    moveDuplicateReports dups strat = [] := by
  rw [moveDuplicateReports, if_neg h₁, if_neg h₂]

/-- C10 witness: a concrete unknown strategy over a nonempty duplicate
mapping yields the empty discard list. -/
theorem claim10_unknown_strategy_witness :
    (("oldest" : String) ≠ "first" ∧ ("oldest" : String) ≠ "biggest") ∧
    moveDuplicateReports [("h", [("a.json", 1), ("b.json", 2)])] "oldest" = [] :=
  ⟨⟨by decide, by decide⟩,
   claim10_unknown_strategy [("h", [("a.json", 1), ("b.json", 2)])] "oldest"
     (by decide) (by decide)⟩

/-- C2: the claim says each readable `positives` value is added to a
running sum and the written "Average VT detections" equals that sum over
the report count.  In the source, `total_vt_positives` is initialized to
0 and never incremented anywhere, so the state component stays 0 over
any input — in particular over a single report with `positives = 5`,
where the written figure `total_vt_positives / total_reports` is 0, not
5. -/
theorem claim2_total_vt_positives_never_summed :
    (∀ (thr : Int) (files : List (String × StatsReport)),
      (statsFold thr files).totalVtPositives = 0) ∧
    (statsFold 10
      [("a.json",
        StatsReport.mk [[1, 2]] (some 5) (CapeDetections.families ["Virlock"])
          (some "emotet"))]).totalVtPositives = 0 ∧
    (StatsReport.mk [[1, 2]] (some 5) (CapeDetections.families ["Virlock"])
      (some "emotet")).vt = some 5 := by
  refine ⟨?_, by decide, rfl⟩
  intro thr files
  exact statsFoldFrom_totalVt files (initStats thr)

/-- C3 counterexample: two reports whose `avclass_detection` values are
`"emotet"` and `"Emotet"` (VT positives readable), which the claim says
fall into one frequency bucket.  The source appends the RAW value (line
147), so the label list holds both spellings and the bucket of the
normalized label `"Emotet"` has count 1, not 2. -/
theorem claim3_counterexample :
    (statsFold 10
      [("a.json", StatsReport.mk [[1]] (some 1) CapeDetections.na (some "emotet")),
       ("b.json",
        StatsReport.mk [[1]] (some 1) CapeDetections.na
          (some "Emotet"))]).avclassDetectionLabels = ["emotet", "Emotet"] ∧
    countLabel ["emotet", "Emotet"] (pyCapitalize "emotet") = 1 ∧
    countLabel ["emotet", "Emotet"] (pyCapitalize "emotet") ≠ 2 := by decide

/-- C3 amended: for a report with readable VT positives and an
`avclass_detection` field present, the SENTINEL TEST uses the
case-normalized value, but the label tallied in the non-sentinel branch
is the raw `avclass_detection` string — so capitalization variants of a
family occupy separate frequency buckets, while sentinel spellings such
as `"(N/A)"` are still filtered out. -/
theorem claim3_amended (st : StatsState) (r : StatsReport) (p : String) (v : Int)
    (a : String) (hv : r.vt = some v) (ha : r.avclassDetection = some a) :
    (pyCapitalize a ≠ "(n/a)" →
      (processReportStats st r p).avclassDetectionLabels =
        st.avclassDetectionLabels ++ [a]) ∧
    (pyCapitalize a = "(n/a)" →
      (processReportStats st r p).avclassDetectionLabels =
        st.avclassDetectionLabels ++ ["(n/a)"] ∧
      (processReportStats st r p).reportsNoAvclassConsensus =
        st.reportsNoAvclassConsensus ++ [p]) := by
  have hps : processReportStats st r p =
      avclassUpdate
        (capeUpdate (vtUpdate (hookedUpdate (spawnedUpdate st r p) r p) v p) r v p)
        r p := by
    unfold processReportStats
    rw [hv]
  have hlab :
      (capeUpdate (vtUpdate (hookedUpdate (spawnedUpdate st r p) r p) v p) r v p).avclassDetectionLabels =
        st.avclassDetectionLabels :=
    ((capeUpdate_preserves _ r v p).2.1).trans
      (((vtUpdate_preserves _ v p).2.2.1).trans
        (((hookedUpdate_preserves _ r p).2.2.1).trans
          ((spawnedUpdate_preserves st r p).2.2.1)))
  have hcons :
      (capeUpdate (vtUpdate (hookedUpdate (spawnedUpdate st r p) r p) v p) r v p).reportsNoAvclassConsensus =
        st.reportsNoAvclassConsensus :=
    ((capeUpdate_preserves _ r v p).2.2).trans
      (((vtUpdate_preserves _ v p).2.2.2.1).trans
        (((hookedUpdate_preserves _ r p).2.2.2.1).trans
          ((spawnedUpdate_preserves st r p).2.2.2.1)))
  constructor
  · intro hna
    rw [hps, avclassUpdate_raw _ r p a ha hna]
    simp [hlab]
  · intro hna
    rw [hps, avclassUpdate_sentinel _ r p a ha hna]
    exact ⟨by simp [hlab], by simp [hcons]⟩

/-- C3 amended, witness at a concrete input: one report with readable VT
positives and `avclass_detection = "emotet"`, whose normalized value is
not the sentinel; the raw label is appended. -/
theorem claim3_amended_witness :
    (StatsReport.mk [[1]] (some 1) CapeDetections.na (some "emotet")).vt = some 1 ∧
    (StatsReport.mk [[1]] (some 1) CapeDetections.na
      (some "emotet")).avclassDetection = some "emotet" ∧
    (pyCapitalize "emotet" ≠ "(n/a)" →
      (processReportStats (initStats 10)
        (StatsReport.mk [[1]] (some 1) CapeDetections.na (some "emotet"))
        "a.json").avclassDetectionLabels =
        (initStats 10).avclassDetectionLabels ++ ["emotet"]) :=
  ⟨rfl, rfl,
   (claim3_amended (initStats 10)
     (StatsReport.mk [[1]] (some 1) CapeDetections.na (some "emotet"))
     "a.json" 1 "emotet" rfl rfl).1⟩

/-- C6 counterexample: the claim describes the normalization as
capitalizing the first letter and LEAVING THE REST UNCHANGED.  Python's
`str.capitalize()` lowercases the rest: for a report whose detections
list holds the family `"VirLock"`, the tallied label is `"Virlock"`, not
the claim's `"VirLock"`. -/
theorem claim6_counterexample :
    (statsFold 10
      [("p.json",
        StatsReport.mk [[1]] (some 1) (CapeDetections.families ["VirLock"])
          none)]).capeDetectionLabels = ["Virlock"] ∧
    specCapitalizeFirstOnly "VirLock" = "VirLock" ∧
    ("Virlock" : String) ≠ "VirLock" := by decide

/-- C6 amended: for a report with nonzero readable VT positives and a
non-sentinel detections list, every family label is tallied after
`str.capitalize()` — first character uppercased and the REST LOWERCASED
— which still collapses pure capitalization variants such as `"Emotet"`
and `"emotet"` into one bucket. -/
theorem claim6_amended (st : StatsState) (r : StatsReport) (p : String) (v : Int)
    (fams : List String) (hv : r.vt = some v) (hnz : v ≠ 0)
    (hd : r.detections = CapeDetections.families fams) :
    (processReportStats st r p).capeDetectionLabels =
      st.capeDetectionLabels ++ fams.map pyCapitalize ∧
    pyCapitalize "Emotet" = pyCapitalize "emotet" := by
  refine ⟨?_, by decide⟩
  have hps : processReportStats st r p =
      avclassUpdate
        (capeUpdate (vtUpdate (hookedUpdate (spawnedUpdate st r p) r p) v p) r v p)
        r p := by
    unfold processReportStats
    rw [hv]
  rw [hps, (avclassUpdate_preserves _ r p).2.1,
    capeUpdate_families _ r v p fams hd hnz]
  simp only []
  rw [(vtUpdate_preserves _ v p).2.1, (hookedUpdate_preserves _ r p).2.1,
    (spawnedUpdate_preserves st r p).2.1]

/-- C6 amended, witness at a concrete input: one report with one VT
positive and families `["VirLock", "emotet"]`; the tallied labels are
the `capitalize`d ones. -/
theorem claim6_amended_witness :
    (StatsReport.mk [[1]] (some 1) (CapeDetections.families ["VirLock", "emotet"])
      none).vt = some 1 ∧
    ((1 : Int) ≠ 0) ∧
    (StatsReport.mk [[1]] (some 1) (CapeDetections.families ["VirLock", "emotet"])
      none).detections = CapeDetections.families ["VirLock", "emotet"] ∧
    (processReportStats (initStats 10)
      (StatsReport.mk [[1]] (some 1) (CapeDetections.families ["VirLock", "emotet"])
        none) "p.json").capeDetectionLabels =
      (initStats 10).capeDetectionLabels ++
        (["VirLock", "emotet"]).map pyCapitalize :=
  ⟨rfl, by decide, rfl,
   (claim6_amended (initStats 10)
     (StatsReport.mk [[1]] (some 1) (CapeDetections.families ["VirLock", "emotet"])
       none) "p.json" 1 ["VirLock", "emotet"] rfl (by decide) rfl).1⟩

/-- C5 counterexample: the claim says structural defects never abort the
classifier run — an unparseable report lands in `fatal` and processing
continues.  The classifier `main` loop has no try/except: a report with
`target` present but no `behavior` key raises `KeyError` and the run
aborts (`b.json` is never processed), and an unparseable report raises
at `json.load` and aborts instead of being classified `fatal`. -/
theorem claim5_counterexample :
    mainClassify
      [("a.json",
        some (CapeReport.mk (some (TargetField.mk (some (FileField.mk none)))) none)),
       ("b.json",
        some (CapeReport.mk (some (TargetField.mk (some (FileField.mk none))))
          (some (BehaviorField.mk (some [ProcEntry.mk (some [1])])))))] =
      Except.error "KeyError: behavior" ∧
    mainClassify [("c.json", none)] = Except.error "JSONDecodeError: c.json" ∧
    mainClassify [("c.json", none)] ≠
      Except.ok [("c.json", ErrCategory.fatal)] := by
  refine ⟨rfl, rfl, ?_⟩
  intro hcon
  exact Except.noConfusion hcon

/-- C5 amended: a report whose top-level `target` is absent is placed in
`fatal` and processing of the remaining reports continues; but a report
whose JSON cannot be parsed, or whose `target` is present while
`behavior` is absent, raises an uncaught exception that aborts the whole
classifier run instead of being quarantined. -/
theorem claim5_amended (p : String) (rest : List (String × Option CapeReport))
    (r : CapeReport) :
    (r.target = none →
      mainClassify ((p, some r) :: rest) =
        (mainClassify rest).map (fun cs => (p, ErrCategory.fatal) :: cs)) ∧
    (r.target ≠ none → r.behavior = none →
      mainClassify ((p, some r) :: rest) = Except.error "KeyError: behavior") ∧
    mainClassify ((p, none) :: rest) = Except.error ("JSONDecodeError: " ++ p) := by
  refine ⟨?_, ?_, rfl⟩
  · intro ht
    have hcat : processIncReport r = Except.ok ErrCategory.fatal := by
      simp [processIncReport, ht]
    rw [mainClassify, hcat]
    cases hrest : mainClassify rest <;> simp [Except.map]
  · intro ht hb
    have hcat : processIncReport r = Except.error "KeyError: behavior" := by
      cases htv : r.target with
      | none => exact absurd htv ht
      | some t => simp [processIncReport, htv, hb]
    rw [mainClassify, hcat]

/-- C5 amended, witness at concrete inputs: a report with no `target`
before a second file produces `fatal` followed by the rest, and a report
with `target` but no `behavior` aborts with the `KeyError`. -/
theorem claim5_amended_witness :
    ((CapeReport.mk none none).target = none ∧
      mainClassify [("x.json", some (CapeReport.mk none none))] =
        (mainClassify []).map
          (fun cs => (("x.json" : String), ErrCategory.fatal) :: cs)) ∧
    ((CapeReport.mk (some (TargetField.mk none)) none).target ≠ none ∧
      (CapeReport.mk (some (TargetField.mk none)) none).behavior = none ∧
      mainClassify [("y.json", some (CapeReport.mk (some (TargetField.mk none)) none))] =
        Except.error "KeyError: behavior") :=
  ⟨⟨rfl, (claim5_amended "x.json" [] (CapeReport.mk none none)).1 rfl⟩,
   ⟨by simp, rfl,
    (claim5_amended "y.json" [] (CapeReport.mk (some (TargetField.mk none)) none)).2.1
      (by simp) rfl⟩⟩

/-- C9: the classifier's checks run in source order and return at the
first match, so a report lacking `target` is classified `fatal` (the
function yields exactly one category, so it lands in no other list), and
a report with `target` present and an empty `behavior.processes`
sequence is classified `no_processes` — which is a different category
from both `fatal` and `no_hooked_functions`. -/
theorem claim9_priority_order (r : CapeReport) :
    (r.target = none → processIncReport r = Except.ok ErrCategory.fatal) ∧
    (∀ t b, r.target = some t → r.behavior = some b → b.processes = some [] →
      processIncReport r = Except.ok ErrCategory.noProcesses) ∧
    (ErrCategory.noProcesses ≠ ErrCategory.fatal ∧
      ErrCategory.noProcesses ≠ ErrCategory.noHookedFunctions) := by
  refine ⟨?_, ?_, by decide, by decide⟩
  · intro ht
    simp [processIncReport, ht]
  · intro t b ht hb hp
    simp [processIncReport, ht, hb, hp]

/-- C9 witness at concrete inputs: a report with no `target` is `fatal`;
a report with `target` present and empty `behavior.processes` is
`no_processes`. -/
theorem claim9_priority_order_witness :
    ((CapeReport.mk none none).target = none ∧
      processIncReport (CapeReport.mk none none) = Except.ok ErrCategory.fatal) ∧
    (processIncReport
        (CapeReport.mk (some (TargetField.mk (some (FileField.mk none))))
          (some (BehaviorField.mk (some [])))) =
      Except.ok ErrCategory.noProcesses) :=
  ⟨⟨rfl, (claim9_priority_order (CapeReport.mk none none)).1 rfl⟩,
   (claim9_priority_order
      (CapeReport.mk (some (TargetField.mk (some (FileField.mk none))))
        (some (BehaviorField.mk (some []))))).2.1
     (TargetField.mk (some (FileField.mk none))) (BehaviorField.mk (some []))
     rfl rfl rfl⟩

/-- C7 counterexample: the claim says every term is treated verbatim as
a literal string, including terms containing `.`.  The source splices
the term unescaped into a sed regex, where `.` matches any character:
for the term `"a.c"` over the text `"abc"` the file is rewritten to
`"[REDACTED]"`, although the literal string `"a.c"` does not occur in
`"abc"` (literal replacement would leave the text unchanged). -/
theorem claim7_counterexample :
    anonymizeReport ["a.c"] "abc" = "[REDACTED]" ∧
    literalAnonymize ["a.c"] "abc" = "abc" ∧
    ("[REDACTED]" : String) ≠ "abc" := by decide

/-- C7 amended: each term is spliced unescaped into a sed substitution,
so it is interpreted as a regular expression, not a literal; only for
nonempty terms avoiding the sed metacharacters and the `/` delimiter
does the pass coincide with verbatim literal replacement of every
occurrence. -/
theorem claim7_amended (terms : List String) (doc : String)
    (hsafe : ∀ t ∈ terms, t ≠ "" ∧ ∀ c ∈ t.data, c ∉ sedSpecials) :
    anonymizeReport terms doc = literalAnonymize terms doc := by
  revert hsafe
  induction terms generalizing doc with
  | nil => intro _; rfl
  | cons t ts ih =>
    intro hsafe
    have ht := hsafe t (List.mem_cons_self t ts)
    have hdot : '.' ∉ t.data := fun hc => ht.2 '.' hc (by decide)
    have hstep : anonymizeReport (t :: ts) doc = anonymizeReport ts (sedSubstOne t doc) := rfl
    have hstep₂ : literalAnonymize (t :: ts) doc =
        literalAnonymize ts (literalReplaceAll t doc) := rfl
    rw [hstep, hstep₂, sedSubstOne_eq_literal t doc hdot]
    exact ih (literalReplaceAll t doc)
      (fun u hu => hsafe u (List.mem_cons.mpr (Or.inr hu)))

/-- C7 amended, witness at a concrete input: a metacharacter-free term
is replaced identically by the sed pass and by literal replacement. -/
theorem claim7_amended_witness :
    (∀ t ∈ ["password"], t ≠ "" ∧ ∀ c ∈ t.data, c ∉ sedSpecials) ∧
    anonymizeReport ["password"] "my password!" =
      literalAnonymize ["password"] "my password!" :=
  ⟨by decide, claim7_amended ["password"] "my password!" (by decide)⟩

end Malvada
